import Mathlib

/-!
Verification of the `fff` bulk URL fetcher (main.go) against its design
specification.  The Go program is shallowly embedded: the per-task pipeline
(request construction, response classification, stdout/artifact output) is
modelled as pure Lean functions over explicit inputs; external effects
(URL parsing, the HTTP transport, the body read) are inputs to the task
function; hash, path and string manipulation from the Go standard library
are embedded as executable Lean definitions.
-/

namespace FFF

/-! ### Character and string helpers (Go `strings` / `bytes` semantics) -/

/-- Go `strings.Split` on a one-character separator, over character lists.
`splitChar sep s` returns the fragments between occurrences of `sep`;
splitting the empty list yields one empty fragment, as in Go. -/
def splitChar (sep : Char) : List Char → List (List Char)
  | [] => [[]]
  | c :: cs =>
    if c == sep then [] :: splitChar sep cs
    else
      match splitChar sep cs with
      | s :: ss => (c :: s) :: ss
      | [] => [[c]]

/-- Number of fragments produced by Go `strings.Split(s, sep)` for a
one-character separator: used for the `words:` / `lines:` counts. -/
def countSplit (sep : Char) (s : String) : Nat :=
  (splitChar sep s.toList).length

/-- `startsWithPat pat l` is true when `pat` is an initial segment of `l`. -/
def startsWithPat : List Char → List Char → Bool
  | [], _ => true
  | _ :: _, [] => false
  | p :: ps, c :: cs => p == c && startsWithPat ps cs

/-- `containsPat pat l`: `pat` occurs contiguously inside `l`
(Go `bytes.Contains` on valid UTF-8 data). -/
def containsPat (pat : List Char) : List Char → Bool
  | [] => startsWithPat pat []
  | c :: cs => startsWithPat pat (c :: cs) || containsPat pat cs

/-- Go `bytes.Contains(body, matchString)`. -/
def containsSub (body pat : String) : Bool :=
  containsPat pat.toList body.toList

/-- The compiled pattern `(?i)<html` from main.go: case-insensitive
containment of `<html`.  Only ASCII letters take part, so folding each
character with `Char.toLower` matches Go's regexp case folding here. -/
def containsHTML (body : String) : Bool :=
  containsPat "<html".toList (body.toList.map Char.toLower)

/-- Go `unicode.IsSpace`: the White_Space code points. -/
def goSpaceChar (c : Char) : Bool :=
  c == ' ' || c == '\t' || c == '\n' || c == '\u000B' || c == '\u000C' ||
  c == '\r' || c == '\u0085' || c == '\u00A0' || c == '\u1680' ||
  ('\u2000' ≤ c && c ≤ '\u200A') || c == '\u2028' || c == '\u2029' ||
  c == '\u202F' || c == '\u205F' || c == '\u3000'

/-- Go `bytes.TrimSpace` (on valid UTF-8 data): strip leading and trailing
white-space characters. -/
def trimSpace (s : String) : String :=
  (((s.toList.dropWhile goSpaceChar).reverse.dropWhile goSpaceChar).reverse).asString

/-! ### Filter criteria and the response classifier (main.go lines 183-203) -/

/-- The process-wide filter configuration consumed by the classifier. -/
structure FilterCriteria where
  matchString : String
  matchCode : List Int
  filterCode : List Int
  ignoreHTML : Bool
  ignoreEmpty : Bool
deriving Repr, DecidableEq

/-- `statusArgs.Includes` from main.go: linear membership scan. -/
def statusIncludes : List Int → Int → Bool
  | [], _ => false
  | x :: xs, n => if x == n then true else statusIncludes xs n

/-- Predicate 1: `ignoreHTMLFiles && isHTML.Match(responseBody)`. -/
def dropHTML (c : FilterCriteria) (body : String) : Bool :=
  c.ignoreHTML && containsHTML body

/-- Predicate 2: `ignoreEmpty && len(bytes.TrimSpace(responseBody)) == 0`. -/
def dropEmpty (c : FilterCriteria) (body : String) : Bool :=
  c.ignoreEmpty && (trimSpace body).isEmpty

/-- Predicate 3: `matchString != "" && !bytes.Contains(responseBody, matchString)`. -/
def dropNoMatch (c : FilterCriteria) (body : String) : Bool :=
  (c.matchString != "") && !(containsSub body c.matchString)

/-- Predicate 4: `len(matchCode) > 0 && !matchCode.Includes(resp.StatusCode)`. -/
def dropMatchCode (c : FilterCriteria) (st : Int) : Bool :=
  !c.matchCode.isEmpty && !(statusIncludes c.matchCode st)

/-- Predicate 5: `len(filterCode) > 0 && !filterCode.Includes(resp.StatusCode)`.
Note the shape is identical to predicate 4: a membership (allow-list) test,
not an exclusion. -/
def dropFilterCode (c : FilterCriteria) (st : Int) : Bool :=
  !c.filterCode.isEmpty && !(statusIncludes c.filterCode st)

/-- The classifier: the chain of early `return`s in main.go lines 183-203,
evaluated in program order.  `none` means the response is kept; `some i`
means it was dropped by predicate `i` (0-indexed in the order above). -/
def classify (c : FilterCriteria) (st : Int) (body : String) : Option (Fin 5) :=
  if dropHTML c body then some 0
  else if dropEmpty c body then some 1
  else if dropNoMatch c body then some 2
  else if dropMatchCode c st then some 3
  else if dropFilterCode c st then some 4
  else none

/-- C1: the classifier evaluates its five predicates in the fixed program
order, short-circuiting on the first predicate that drops: a kept response
satisfies every active predicate, and a response dropped with reason `i`
fails predicate `i` while passing every earlier predicate; in particular an
empty body with both `ignoreHTML` and `ignoreEmpty` enabled is dropped by
the empty check (reason 1), not the HTML check. -/
theorem classify_first_failing_predicate (c : FilterCriteria) (st : Int) (body : String) :
    ((classify c st body = none ↔
        dropHTML c body = false ∧ dropEmpty c body = false ∧ dropNoMatch c body = false ∧
        dropMatchCode c st = false ∧ dropFilterCode c st = false)
      ∧ (classify c st body = some 0 ↔ dropHTML c body = true)
      ∧ (classify c st body = some 1 ↔ dropHTML c body = false ∧ dropEmpty c body = true)
      ∧ (classify c st body = some 2 ↔ dropHTML c body = false ∧ dropEmpty c body = false ∧
          dropNoMatch c body = true)
      ∧ (classify c st body = some 3 ↔ dropHTML c body = false ∧ dropEmpty c body = false ∧
          dropNoMatch c body = false ∧ dropMatchCode c st = true)
      ∧ (classify c st body = some 4 ↔ dropHTML c body = false ∧ dropEmpty c body = false ∧
          dropNoMatch c body = false ∧ dropMatchCode c st = false ∧ dropFilterCode c st = true))
    ∧ (c.ignoreHTML = true → c.ignoreEmpty = true → classify c st "" = some 1) := by
  constructor
  · cases h0 : dropHTML c body <;> cases h1 : dropEmpty c body <;>
      cases h2 : dropNoMatch c body <;> cases h3 : dropMatchCode c st <;>
      cases h4 : dropFilterCode c st <;>
      simp [classify, h0, h1, h2, h3, h4, Fin.ext_iff] <;> decide
  · intro hH hE
    have hhtml : containsHTML "" = false := rfl
    have htrim : (trimSpace "").isEmpty = true := rfl
    simp [classify, dropHTML, dropEmpty, hH, hE, hhtml, htrim]

/-- Witness for C1 at a concrete input: with both ignore flags set and an
empty body, the classifier drops with reason 1 (the empty check). -/
theorem classify_first_failing_predicate_w :
    classify ⟨"", [], [], true, true⟩ 200 "" = some 1 :=
  (classify_first_failing_predicate ⟨"", [], [], true, true⟩ 200 "").2 rfl rfl

/-- C2: when the `-fc` filter-out list (`filterCode`) is non-empty and the
earlier predicates pass, the response is dropped (by predicate 4) exactly
when its status is NOT a member of the list, and kept exactly when it IS a
member — i.e. the predicate behaves as an allow-list, identical in shape to
the match-status predicate, not as an exclusion. -/
theorem filter_code_is_allowlist (c : FilterCriteria) (st : Int) (body : String)
    (hne : c.filterCode ≠ [])
    (h0 : dropHTML c body = false) (h1 : dropEmpty c body = false)
    (h2 : dropNoMatch c body = false) (h3 : dropMatchCode c st = false) :
    (classify c st body = none ↔ statusIncludes c.filterCode st = true)
    ∧ (classify c st body = some 4 ↔ statusIncludes c.filterCode st = false) := by
  have hne2 : c.filterCode.isEmpty = false := by
    cases h : c.filterCode with
    | nil => exact absurd h hne
    | cons a l => simp [h]
  cases hs : statusIncludes c.filterCode st <;>
    simp [classify, dropFilterCode, h0, h1, h2, h3, hne2, hs]

/-- Witness for C2: with `filterCode = [404]` and status 404 the response is
kept; the theorem instance shows keep ↔ membership. -/
theorem filter_code_is_allowlist_w :
    classify ⟨"", [], [404], false, false⟩ 404 "x" = none :=
  ((filter_code_is_allowlist ⟨"", [], [404], false, false⟩ 404 "x"
      (by decide) rfl rfl rfl rfl).1).2 rfl

/-! ### Request construction (main.go lines 127-157) -/

/-- The method actually sent: main.go promotes the method to `POST` when a
request body is present and the method equals the default `"GET"`; any
other method is left unchanged. -/
def effectiveMethod (requestBody method : String) : String :=
  if requestBody != "" then
    (if method == "GET" then "POST" else method)
  else method

/-- C4: with a non-empty body, a `"GET"` (the unset/default) method is sent
as `"POST"`, and any explicitly chosen non-default method is sent
unchanged. -/
theorem method_promotion (requestBody method : String) (hb : requestBody ≠ "") :
    (method = "GET" → effectiveMethod requestBody method = "POST")
    ∧ (method ≠ "GET" → effectiveMethod requestBody method = method) := by
  have hb2 : (requestBody != "") = true := by
    simp [bne_iff_ne, hb]
  constructor
  · intro hm
    simp [effectiveMethod, hb2, hm]
  · intro hm
    have : (method == "GET") = false := by
      simp [beq_eq_false_iff_ne, hm]
    simp [effectiveMethod, hb2, this]

/-- Witness for C4: body `"a=1"` with explicit method `"PUT"` is sent as
`"PUT"`; the same body with default `"GET"` is sent as `"POST"`. -/
theorem method_promotion_w :
    effectiveMethod "a=1" "PUT" = "PUT" ∧ effectiveMethod "a=1" "GET" = "POST" :=
  ⟨(method_promotion "a=1" "PUT" (by decide)).2 (by decide),
   (method_promotion "a=1" "GET" (by decide)).1 rfl⟩

/-! ### SHA-1 (Go `crypto/sha1`), over byte lists as `Nat` values -/

/-- Truncate to a 32-bit word. -/
def w32 (n : Nat) : Nat := n % 4294967296

/-- 32-bit left rotation (argument assumed below `2^32`). -/
def rotl (k x : Nat) : Nat := w32 ((x <<< k) ||| (x >>> (32 - k)))

/-- Big-endian bytes of a 32-bit word. -/
def be32 (n : Nat) : List Nat :=
  [n / 16777216 % 256, n / 65536 % 256, n / 256 % 256, n % 256]

/-- Big-endian bytes of a 64-bit word. -/
def be64 (n : Nat) : List Nat :=
  [n / 72057594037927936 % 256, n / 281474976710656 % 256,
   n / 1099511627776 % 256, n / 4294967296 % 256,
   n / 16777216 % 256, n / 65536 % 256, n / 256 % 256, n % 256]

/-- SHA-1 padding: `0x80`, zeros to 56 mod 64, then the bit length. -/
def sha1pad (msg : List Nat) : List Nat :=
  msg ++ [128] ++ List.replicate ((64 + 56 - ((msg.length + 1) % 64)) % 64) 0 ++
    be64 (msg.length * 8)

/-- Split a byte list into 64-byte chunks (structural accumulator version:
`cur` holds the current chunk reversed, `k` its length). -/
def chunksAux (cur : List Nat) (k : Nat) : List Nat → List (List Nat)
  | [] => if cur.isEmpty then [] else [cur.reverse]
  | b :: bs =>
    if k == 63 then (b :: cur).reverse :: chunksAux [] 0 bs
    else chunksAux (b :: cur) (k + 1) bs

/-- Split a byte list into 64-byte chunks. -/
def chunks64 (l : List Nat) : List (List Nat) := chunksAux [] 0 l

/-- Pack big-endian byte quadruples into 32-bit words. -/
def words16 : List Nat → List Nat
  | a :: b :: c :: d :: rest => (((a * 256 + b) * 256 + c) * 256 + d) :: words16 rest
  | _ => []

/-- Extend the 16 chunk words by `k` further schedule words (the word at
index `i = ws.length` is the rotation of the xor of the words at
`i - 3`, `i - 8`, `i - 14`, `i - 16`). -/
def extendWords : Nat → List Nat → List Nat
  | 0, ws => ws
  | k + 1, ws =>
    extendWords k
      (ws ++ [rotl 1 ((((ws.getD (ws.length - 3) 0) ^^^ (ws.getD (ws.length - 8) 0)) ^^^
        (ws.getD (ws.length - 14) 0)) ^^^ (ws.getD (ws.length - 16) 0))])

/-- The SHA-1 round function. -/
def sha1f (t b c d : Nat) : Nat :=
  if t < 20 then (b &&& c) ||| ((4294967295 - b) &&& d)
  else if t < 40 then (b ^^^ c) ^^^ d
  else if t < 60 then ((b &&& c) ||| (b &&& d)) ||| (c &&& d)
  else (b ^^^ c) ^^^ d

/-- The SHA-1 round constants. -/
def sha1k (t : Nat) : Nat :=
  if t < 20 then 1518500249 else if t < 40 then 1859775393
  else if t < 60 then 2400959708 else 3395469782

/-- Run the 80 rounds over the schedule words. -/
def sha1rounds : Nat → List Nat → Nat × Nat × Nat × Nat × Nat → Nat × Nat × Nat × Nat × Nat
  | _, [], st => st
  | t, w :: ws, (a, b, c, d, e) =>
    sha1rounds (t + 1) ws
      (w32 (rotl 5 a + sha1f t b c d + e + sha1k t + w), a, rotl 30 b, c, d)

/-- Compress one 64-byte chunk into the running state. -/
def sha1chunk (st : Nat × Nat × Nat × Nat × Nat) (chunk : List Nat) :
    Nat × Nat × Nat × Nat × Nat :=
  match st, sha1rounds 0 (extendWords 64 (words16 chunk)) st with
  | (h0, h1, h2, h3, h4), (a, b, c, d, e) =>
    (w32 (h0 + a), w32 (h1 + b), w32 (h2 + c), w32 (h3 + d), w32 (h4 + e))

/-- The 20-byte SHA-1 digest of a byte list (Go `sha1.Sum`). -/
def sha1bytes (msg : List Nat) : List Nat :=
  match (chunks64 (sha1pad msg)).foldl sha1chunk
      (1732584193, 4023233417, 2562383102, 271733878, 3285377520) with
  | (h0, h1, h2, h3, h4) => be32 h0 ++ be32 h1 ++ be32 h2 ++ be32 h3 ++ be32 h4

/-- Lowercase hex digit. -/
def hexDigit (n : Nat) : Char := "0123456789abcdef".toList.getD n '0'

/-- Lowercase hex rendering of a byte list (Go `fmt.Sprintf("%x", ...)`). -/
def hexOfBytes : List Nat → List Char
  | [] => []
  | b :: bs => hexDigit (b / 16) :: hexDigit (b % 256 % 16) :: hexOfBytes bs

/-- UTF-8 encoding of one character. -/
def utf8Bytes (c : Char) : List Nat :=
  if c.toNat < 128 then [c.toNat]
  else if c.toNat < 2048 then [192 + c.toNat / 64, 128 + c.toNat % 64]
  else if c.toNat < 65536 then
    [224 + c.toNat / 4096, 128 + c.toNat / 64 % 64, 128 + c.toNat % 64]
  else
    [240 + c.toNat / 262144, 128 + c.toNat / 4096 % 64,
     128 + c.toNat / 64 % 64, 128 + c.toNat % 64]

/-- UTF-8 bytes of a string (Go strings are UTF-8 byte sequences). -/
def strBytes (s : String) : List Nat := s.toList.flatMap utf8Bytes

/-- The hex digest used for artifact file names:
`sha1.Sum([]byte(method + rawURL + requestBody + headers.String()))`, where
`headerArgs.String()` joins the raw header arguments with `", "`. -/
def digestHex (m rawURL reqBody : String) (hs : List String) : String :=
  (hexOfBytes (sha1bytes (strBytes (m ++ rawURL ++ reqBody ++
    String.intercalate ", " hs)))).asString

/-! ### Go `path.Clean` / `path.Join` and `normalisePath` -/

/-- Join segments with `'/'` (Go `strings.Join(elems, "/")`). -/
def intercalateSlash : List (List Char) → List Char
  | [] => []
  | [s] => s
  | s :: rest => s ++ '/' :: intercalateSlash rest

/-- Segments kept by `path.Clean`: drop empty segments and `"."`. -/
def keepSeg (s : List Char) : Bool := !s.isEmpty && s != ['.']

/-- The `".."` backtracking pass of Go `path.Clean` over the remaining
segments; `acc` is the output stack, most recent first. -/
def cleanSegsAux (rooted : Bool) (acc : List (List Char)) :
    List (List Char) → List (List Char)
  | [] => acc.reverse
  | s :: rest =>
    if s == ['.', '.'] then
      match acc with
      | [] =>
        if rooted then cleanSegsAux rooted [] rest
        else cleanSegsAux rooted [s] rest
      | a :: tl =>
        if a == ['.', '.'] then cleanSegsAux rooted (s :: acc) rest
        else cleanSegsAux rooted tl rest
    else cleanSegsAux rooted (s :: acc) rest

/-- Go `path.Clean`, lexically: collapse multiple slashes, drop `.`,
resolve `..`, strip trailing slash, empty result becomes `"."` or `"/"`. -/
def goPathCleanL (p : List Char) : List Char :=
  if p.isEmpty then ['.']
  else
    let rooted := p.head? == some '/'
    let out := cleanSegsAux rooted [] ((splitChar '/' p).filter keepSeg)
    if out.isEmpty then (if rooted then ['/'] else ['.'])
    else (if rooted then ['/'] else []) ++ intercalateSlash out

/-- Go `path.Join`: skip leading empty elements, join the rest with
slashes (keeping interior empties, which `Clean` collapses), then Clean;
all-empty input yields the empty string. -/
def goPathJoinL (elems : List (List Char)) : List Char :=
  match elems.dropWhile List.isEmpty with
  | [] => []
  | es => goPathCleanL (intercalateSlash es)

/-- String-level Go `path.Join`. -/
def goPathJoin (elems : List String) : String :=
  (goPathJoinL (elems.map String.toList)).asString

/-- A character the `normalisePath` regex `[^a-zA-Z0-9/._-]+` replaces. -/
def badPathChar (c : Char) : Bool :=
  !(('a' ≤ c && c ≤ 'z') || ('A' ≤ c && c ≤ 'Z') || ('0' ≤ c && c ≤ '9') ||
    c == '/' || c == '.' || c == '_' || c == '-')

/-- Replace each maximal run of disallowed characters by one `'-'`
(`prevBad` records whether the previous character was part of a run). -/
def normRun (prevBad : Bool) : List Char → List Char
  | [] => []
  | c :: cs =>
    if badPathChar c then
      (if prevBad then normRun true cs else '-' :: normRun true cs)
    else c :: normRun false cs

/-- `normalisePath` from main.go: the URL path with every maximal run of
characters outside `[a-zA-Z0-9/._-]` replaced by a single `'-'`. -/
def normalisePath (p : String) : String := (normRun false p.toList).asString

/-! ### The parsed URL and the artifact paths (main.go lines 214-232) -/

/-- The parts of the parsed request URL used by the persister:
`req.URL.Hostname()` and `req.URL.Path`. -/
structure GoURL where
  host : String
  path : String
deriving Repr, DecidableEq

/-- The `.body` artifact path:
`path.Join(prefix, req.URL.Hostname(), normalisePath(req.URL), hash.body)`. -/
def bodyArtifactPath (pfx m rawURL reqBody : String) (hs : List String) (u : GoURL) :
    String :=
  goPathJoin [pfx, u.host, normalisePath u.path,
    digestHex m rawURL reqBody hs ++ ".body"]

/-- The `.headers` artifact path (same directory and digest). -/
def headersArtifactPath (pfx m rawURL reqBody : String) (hs : List String) (u : GoURL) :
    String :=
  goPathJoin [pfx, u.host, normalisePath u.path,
    digestHex m rawURL reqBody hs ++ ".headers"]

/-! ### Request header construction (main.go lines 150-157, `http.Header.Set`) -/

/-- A token character per `textproto.validHeaderFieldByte`
(RFC 7230 token: alphanumerics and specials). -/
def tokenChar (c : Char) : Bool :=
  ('a' ≤ c && c ≤ 'z') || ('A' ≤ c && c ≤ 'Z') || ('0' ≤ c && c ≤ '9') ||
  c == '!' || c == '#' || c == '$' || c == '%' || c == '&' ||
  c == Char.ofNat 39 || c == '*' || c == '+' || c == '-' || c == '.' ||
  c == '^' || c == '_' || c == Char.ofNat 96 || c == '|' || c == '~'

/-- ASCII upper-casing of one character. -/
def upChar (c : Char) : Char :=
  if 'a' ≤ c && c ≤ 'z' then Char.ofNat (c.toNat - 32) else c

/-- ASCII lower-casing of one character. -/
def downChar (c : Char) : Char :=
  if 'A' ≤ c && c ≤ 'Z' then Char.ofNat (c.toNat + 32) else c

/-- The canonicalisation pass: upper-case at the start and after each
hyphen, lower-case elsewhere. -/
def canonPass (upper : Bool) : List Char → List Char
  | [] => []
  | c :: cs =>
    (if upper then upChar c else downChar c) :: canonPass (c == '-') cs

/-- Go `textproto.CanonicalMIMEHeaderKey`: keys containing a non-token
character are returned unchanged, otherwise canonicalised. -/
def canonicalKey (k : String) : String :=
  if k.toList.all tokenChar then (canonPass true k.toList).asString else k

/-- One `req.Header.Set(key, value)` on the header mapping, modelled as an
insertion-ordered association list: replace the entry for the canonical
key, or append a new one. -/
def setHeader (ck v : String) : List (String × List String) → List (String × List String)
  | [] => [(ck, [v])]
  | p :: ps => if p.1 == ck then (ck, [v]) :: ps else p :: setHeader ck v ps

/-- Go `strings.SplitN(h, ":", 2)`: split at the first colon, if any. -/
def splitFirstColon : List Char → Option (List Char × List Char)
  | [] => none
  | c :: cs =>
    if c == ':' then some ([], cs)
    else (splitFirstColon cs).map (fun p => (c :: p.1, p.2))

/-- A well-formed `-H` argument parsed as `(name, value)`; entries without
a colon are dropped (main.go lines 150-157). -/
def parseHeaderEntry (h : String) : Option (String × String) :=
  (splitFirstColon h.toList).map (fun p => (p.1.asString, p.2.asString))

/-- One iteration of the header loop: parse the `-H` argument and `Set` it,
skipping colon-less entries. -/
def setStep (m : List (String × List String)) (h : String) :
    List (String × List String) :=
  match parseHeaderEntry h with
  | some kv => setHeader (canonicalKey kv.1) kv.2 m
  | none => m

/-- The request header map after the `req.Header.Set` loop over the
configured `-H` list, in order. -/
def buildReqHeaders (hs : List String) : List (String × List String) :=
  hs.foldl setStep []

/-- `headerArgs.Set` from main.go: the flag value is appended to the list. -/
def headerArgsSet (h : List String) (val : String) : List String := h ++ [val]

/-! ### Responses, output events and the per-task pipeline -/

/-- The response data the task consumes after the body read: status code,
`resp.Proto`, `resp.Status`, the response header mapping (insertion
order as received), and the body bytes. -/
structure Response where
  statusCode : Int
  proto : String
  status : String
  headers : List (String × List String)
  body : String
deriving Repr, DecidableEq

/-- `resp.Header.Get(k)` for an already-canonical `k`: first value of the
entry, or the empty string. -/
def getHeader (hdrs : List (String × List String)) (k : String) : String :=
  match hdrs.find? (fun p => p.1 == k) with
  | some (_, v :: _) => v
  | _ => ""

/-- The process configuration produced by flag parsing (§6). -/
structure Config where
  requestBody : String
  method : String
  headers : List String
  matchString : String
  matchCode : List Int
  filterCode : List Int
  outputDir : String
  proxy : String
  keepAlive : Bool
  delayMs : Int
  ignoreHTML : Bool
  ignoreEmpty : Bool
deriving Repr, DecidableEq

/-- The filter criteria extracted from the configuration. -/
def criteria (cfg : Config) : FilterCriteria :=
  ⟨cfg.matchString, cfg.matchCode, cfg.filterCode, cfg.ignoreHTML, cfg.ignoreEmpty⟩

/-- One observable output of a task. -/
inductive OutEvent where
  | stdout : String → OutEvent
  | fileWrite : String → String → OutEvent
deriving Repr, DecidableEq

/-- The summary-format stdout line
`"%s,%s,status: %d,size: %d,words: %d,lines: %d,type: %s\n"`. -/
def summaryLine (url loc : String) (st : Int) (size words lines : Nat)
    (ctype : String) : String :=
  url ++ "," ++ loc ++ ",status: " ++ toString st ++ ",size: " ++ toString size ++
  ",words: " ++ toString words ++ ",lines: " ++ toString lines ++ ",type: " ++
  ctype ++ "\n"

/-- What the external world did to one task: the URL parse, request
construction, transport and body read either fail (with an error message)
or yield a parsed URL and a fully-read response. -/
inductive FetchOutcome where
  | parseError : FetchOutcome
  | buildError : String → FetchOutcome
  | doError : String → FetchOutcome
  | readError : String → FetchOutcome
  | success : GoURL → Response → FetchOutcome
deriving Repr

/-- The request line and request-header part of the `.headers` transcript
(main.go lines 240-255): `METHOD URL`, blank line, each raw `-H` argument
as `> h`, a blank line, and the raw request body if non-empty. -/
def transcriptReqPart (meth rawURL reqBody : String) (reqHeaders : List String) : String :=
  meth ++ " " ++ rawURL ++ "\n\n" ++
  String.join (reqHeaders.map (fun h => "> " ++ h ++ "\n")) ++ "\n" ++
  (if reqBody != "" then reqBody ++ "\n\n" else "")

/-- The response status line `< PROTO STATUS` of the transcript. -/
def statusLinePart (proto status : String) : String :=
  "< " ++ proto ++ " " ++ status ++ "\n"

/-- The response-header block of the transcript: for each map entry in the
iteration order `iter`, one `< name: value` line per value. -/
def respHeaderBlock (iter : List (String × List String)) : String :=
  String.join (iter.map (fun p =>
    String.join (p.2.map (fun v => "< " ++ p.1 ++ ": " ++ v ++ "\n"))))

/-- The individual `< name: value` lines of the response-header block. -/
def respHeaderLines (iter : List (String × List String)) : List String :=
  iter.flatMap (fun p => p.2.map (fun v => "< " ++ p.1 ++ ": " ++ v ++ "\n"))

/-- The whole `.headers` transcript (main.go lines 240-265).  `iter` is the
sequence in which the Go runtime ranges over the `resp.Header` map: Go map
iteration order is unspecified, so it is an explicit input here. -/
def transcript (meth rawURL reqBody : String) (reqHeaders : List String)
    (proto status : String) (iter : List (String × List String)) : String :=
  transcriptReqPart meth rawURL reqBody reqHeaders ++
  statusLinePart proto status ++ respHeaderBlock iter

/-- One task of the goroutine body (main.go lines 123-276), from the
outcome of the external steps to the task's outputs.  File-system
operations are assumed to succeed (their failure only produces stderr
noise and aborts that task's persistence).  `iter` is the map iteration
order used for the transcript. -/
def runTask (cfg : Config) (rawURL : String) (outcome : FetchOutcome)
    (iter : List (String × List String)) : List OutEvent :=
  let meth := effectiveMethod cfg.requestBody cfg.method
  let pfx := if cfg.outputDir == "" then "out" else cfg.outputDir
  match outcome with
  | .parseError => []
  | .buildError e => [.stdout (summaryLine rawURL e 0 0 0 0 "error")]
  | .doError e => [.stdout (summaryLine rawURL e 0 0 0 0 "error")]
  | .readError e => [.stdout (summaryLine rawURL e 0 0 0 0 "error")]
  | .success u resp =>
    match classify (criteria cfg) resp.statusCode resp.body with
    | some _ => []
    | none =>
      if cfg.outputDir == "" then
        [.stdout (summaryLine rawURL (getHeader resp.headers "Location")
          resp.statusCode (strBytes resp.body).length
          (countSplit ' ' resp.body) (countSplit '\n' resp.body)
          (getHeader resp.headers "Content-Type"))]
      else
        let bodyPath := bodyArtifactPath pfx meth rawURL cfg.requestBody cfg.headers u
        let hdrPath := headersArtifactPath pfx meth rawURL cfg.requestBody cfg.headers u
        [.fileWrite bodyPath resp.body,
         .fileWrite hdrPath
           (transcript meth rawURL cfg.requestBody cfg.headers resp.proto resp.status iter),
         .stdout (bodyPath ++ ": " ++ rawURL ++ " " ++ toString resp.statusCode ++ "\n")]

/-! ### Claims about the per-task pipeline -/

/-- C6: a task whose raw URL fails `url.ParseRequestURI` terminates with no
output on any channel — no stdout line, no file write — and no surfaced
error (main.go lines 137-140). -/
theorem malformed_url_is_silent (cfg : Config) (rawURL : String)
    (iter : List (String × List String)) :
    runTask cfg rawURL .parseError iter = [] := rfl

/-- C7: a request-construction, transport, or body-read failure produces
exactly one stdout line in the summary format, with the error message in
the redirect-location field, status 0, size 0, words 0, lines 0 and type
`error`; the task then terminates normally (main.go lines 142-147,
160-175). -/
theorem task_error_line (cfg : Config) (rawURL e : String)
    (iter : List (String × List String)) :
    runTask cfg rawURL (.buildError e) iter =
      [.stdout (summaryLine rawURL e 0 0 0 0 "error")] ∧
    runTask cfg rawURL (.doError e) iter =
      [.stdout (summaryLine rawURL e 0 0 0 0 "error")] ∧
    runTask cfg rawURL (.readError e) iter =
      [.stdout (summaryLine rawURL e 0 0 0 0 "error")] :=
  ⟨rfl, rfl, rfl⟩

/-- C5 (amended): in stdout summary mode (no output directory), a response
reaching the classifier produces exactly one summary line — with the word
and line counts computed by splitting the body on the ASCII space and on
newline — when the classifier keeps it, and produces NO output when the
classifier drops it. -/
theorem summary_mode_output (cfg : Config) (rawURL : String) (u : GoURL)
    (resp : Response) (iter : List (String × List String))
    (hmode : cfg.outputDir = "") :
    (classify (criteria cfg) resp.statusCode resp.body = none →
      runTask cfg rawURL (.success u resp) iter =
        [.stdout (summaryLine rawURL (getHeader resp.headers "Location")
          resp.statusCode (strBytes resp.body).length
          (countSplit ' ' resp.body) (countSplit '\n' resp.body)
          (getHeader resp.headers "Content-Type"))]) ∧
    (∀ i : Fin 5, classify (criteria cfg) resp.statusCode resp.body = some i →
      runTask cfg rawURL (.success u resp) iter = []) := by
  constructor
  · intro hk
    simp [runTask, hk, hmode]
  · intro i hd
    simp [runTask, hd]

/-- Witness for C5 (amended): a kept 200 response with body `"hi"` in
summary mode prints exactly its one summary line. -/
theorem summary_mode_output_w :
    runTask ⟨"", "GET", [], "", [], [], "", "", false, 100, false, false⟩
      "http://example.com/"
      (.success ⟨"example.com", "/"⟩ ⟨200, "HTTP/1.1", "200 OK", [], "hi"⟩) [] =
      [.stdout (summaryLine "http://example.com/" "" 200 2 1 1 "")] :=
  (summary_mode_output ⟨"", "GET", [], "", [], [], "", "", false, 100, false, false⟩
    "http://example.com/" ⟨"example.com", "/"⟩ ⟨200, "HTTP/1.1", "200 OK", [], "hi"⟩
    [] rfl).1 rfl

/-- Counterexample to C5 as stated: in summary mode with `matchCode=[200]`,
a 404 response reaches the classifier, is dropped by predicate 3, and the
task prints NOTHING — not one line regardless of keep/drop. -/
theorem summary_mode_drop_no_line_cex :
    classify (criteria ⟨"", "GET", [], "", [200], [], "", "", false, 100, false, false⟩)
        404 "x" = some 3 ∧
    runTask ⟨"", "GET", [], "", [200], [], "", "", false, 100, false, false⟩
      "http://example.com/x"
      (.success ⟨"example.com", "/x"⟩ ⟨404, "HTTP/1.1", "404 Not Found", [], "x"⟩) [] =
      [] :=
  ⟨rfl, rfl⟩

/-- C10: a kept zero-length body in summary mode is reported with size 0
but words 1 and lines 1: Go `strings.Split("", sep)` yields one (empty)
fragment. -/
theorem empty_body_summary_counts (cfg : Config) (rawURL : String) (u : GoURL)
    (resp : Response) (iter : List (String × List String))
    (hmode : cfg.outputDir = "") (hbody : resp.body = "")
    (hkeep : classify (criteria cfg) resp.statusCode resp.body = none) :
    runTask cfg rawURL (.success u resp) iter =
      [.stdout (summaryLine rawURL (getHeader resp.headers "Location")
        resp.statusCode 0 1 1 (getHeader resp.headers "Content-Type"))] := by
  rw [hbody] at hkeep
  simp [runTask, hkeep, hmode, hbody]
  rfl

/-- Witness for C10: a kept empty-body 204 response prints
`size: 0,words: 1,lines: 1`. -/
theorem empty_body_summary_counts_w :
    runTask ⟨"", "GET", [], "", [], [], "", "", false, 100, false, false⟩
      "http://example.com/e"
      (.success ⟨"example.com", "/e"⟩ ⟨204, "HTTP/1.1", "204 No Content", [], ""⟩) [] =
      [.stdout (summaryLine "http://example.com/e" "" 204 0 1 1 "")] :=
  empty_body_summary_counts ⟨"", "GET", [], "", [], [], "", "", false, 100, false, false⟩
    "http://example.com/e" ⟨"example.com", "/e"⟩
    ⟨204, "HTTP/1.1", "204 No Content", [], ""⟩ [] rfl rfl rfl

/-! ### C9: repeated `-H` flags with the same name -/

/-- Lookup of a header mapping at a (canonical) key. -/
def lookupHeader (m : List (String × List String)) (ck : String) :
    Option (List String) :=
  (m.find? (fun p => p.1 == ck)).map (fun p => p.2)

/-- The value of the LAST well-formed `-H` entry whose canonical name is
`ck`, if any: the reference description of "later entries replace earlier
ones". -/
def lastVal (ck : String) : List String → Option String
  | [] => none
  | h :: t =>
    match lastVal ck t with
    | some w => some w
    | none =>
      match parseHeaderEntry h with
      | some kv => if canonicalKey kv.1 == ck then some kv.2 else none
      | none => none

theorem lookupHeader_setHeader_same (ck v : String) :
    ∀ m : List (String × List String), lookupHeader (setHeader ck v m) ck = some [v] := by
  intro m
  induction m with
  | nil => simp [setHeader, lookupHeader, List.find?]
  | cons p ps ih =>
    cases hp : (p.1 == ck) with
    | true => simp [setHeader, hp, lookupHeader, List.find?]
    | false =>
      simp only [setHeader, hp, Bool.false_eq_true, if_false]
      simp only [lookupHeader, List.find?, hp] at ih ⊢
      exact ih

theorem lookupHeader_setHeader_other (ck v ck2 : String) (hne : ck ≠ ck2) :
    ∀ m : List (String × List String),
      lookupHeader (setHeader ck v m) ck2 = lookupHeader m ck2 := by
  intro m
  have hb : (ck == ck2) = false := by simp [beq_eq_false_iff_ne, hne]
  induction m with
  | nil => simp [setHeader, lookupHeader, List.find?, hb]
  | cons p ps ih =>
    cases hp : (p.1 == ck) with
    | true =>
      have hp2 : (p.1 == ck2) = false := by
        have h1 : p.1 = ck := by simpa [beq_iff_eq] using hp
        simp [h1, hb]
      simp [setHeader, hp, lookupHeader, List.find?, hb, hp2]
    | false =>
      simp only [setHeader, hp, Bool.false_eq_true, if_false]
      simp only [lookupHeader, List.find?] at ih ⊢
      cases hq : (p.1 == ck2) with
      | true => simp [hq]
      | false => simpa [hq] using ih

theorem lookupHeader_foldl_setStep (ck : String) (hs : List String) :
    ∀ m : List (String × List String),
      lookupHeader (hs.foldl setStep m) ck =
        match lastVal ck hs with
        | some v => some [v]
        | none => lookupHeader m ck := by
  induction hs with
  | nil => intro m; simp [lastVal]
  | cons h t ih =>
    intro m
    rw [List.foldl_cons, ih (setStep m h)]
    cases hlv : lastVal ck t with
    | some v => simp [lastVal, hlv]
    | none =>
      simp only [lastVal, hlv]
      cases hph : parseHeaderEntry h with
      | none => simp [setStep, hph]
      | some kv =>
        by_cases hck : canonicalKey kv.1 == ck
        · have : canonicalKey kv.1 = ck := by simpa [beq_iff_eq] using hck
          simp [setStep, hph, hck, this, lookupHeader_setHeader_same]
        · have : canonicalKey kv.1 ≠ ck := by simpa [beq_iff_eq] using hck
          simp [setStep, hph, hck, lookupHeader_setHeader_other _ _ _ this]

/-- C9: the outbound request's header mapping holds, for each header name,
exactly the value of the LAST well-formed `-H` entry with that (canonical)
name — earlier duplicate values are replaced by `req.Header.Set`, not
accumulated — while the configured header list itself (`headerArgs.Set`)
retains every entry in order.  The final conjunct shows the concrete
duplicate case. -/
theorem request_header_last_entry_wins (hs : List String) (ck : String) :
    lookupHeader (buildReqHeaders hs) ck = (lastVal ck hs).map (fun v => [v])
    ∧ (∀ v, headerArgsSet hs v = hs ++ [v])
    ∧ lookupHeader (buildReqHeaders ["X-Test:a", "X-Test:b"]) "X-Test" = some ["b"] := by
  refine ⟨?_, fun v => rfl, rfl⟩
  rw [buildReqHeaders, lookupHeader_foldl_setStep]
  cases lastVal ck hs <;> simp [lookupHeader, List.find?]

/-! ### C8: the `.headers` transcript layout -/

/-- C8 (amended): for any order `iter` in which the Go runtime may range
over the response-header map (any permutation of the stored mapping), the
transcript ends with the status line followed by one `< name: value` line
per header value (multi-valued headers repeated once per value, in their
stored value order); the emitted lines are a permutation of the
insertion-order lines, but NOT necessarily in insertion order. -/
theorem transcript_layout (meth rawURL reqBody : String) (reqHeaders : List String)
    (proto status : String) (hdrs iter : List (String × List String))
    (hperm : iter.Perm hdrs) :
    transcript meth rawURL reqBody reqHeaders proto status iter =
      transcriptReqPart meth rawURL reqBody reqHeaders ++
        (statusLinePart proto status ++ respHeaderBlock iter)
    ∧ (respHeaderLines iter).Perm (respHeaderLines hdrs) := by
  constructor
  · simp [transcript, String.ext_iff]
  · exact hperm.flatMap_right _

/-- Witness for C8 (amended) at a singleton header mapping. -/
theorem transcript_layout_w :
    transcript "GET" "http://example.com/" "" [] "HTTP/1.1" "200 OK" [("A", ["1"])] =
      transcriptReqPart "GET" "http://example.com/" "" [] ++
        (statusLinePart "HTTP/1.1" "200 OK" ++ respHeaderBlock [("A", ["1"])]) :=
  (transcript_layout "GET" "http://example.com/" "" [] "HTTP/1.1" "200 OK"
    [("A", ["1"])] [("A", ["1"])] (List.Perm.refl _)).1

/-- Counterexample to C8 as stated: with stored insertion order
`[(A, [1]), (B, [2])]`, the map may be iterated as `[(B, [2]), (A, [1])]`,
and the resulting transcript does NOT end with the status line followed by
the insertion-ordered header lines. -/
theorem transcript_insertion_order_cex :
    ((statusLinePart "HTTP/1.1" "200 OK" ++
        respHeaderBlock [("A", ["1"]), ("B", ["2"])]).toList.isSuffixOf
      (transcript "GET" "http://example.com/" "" [] "HTTP/1.1" "200 OK"
        [("B", ["2"]), ("A", ["1"])]).toList) = false := by decide

/-! ### C3: lemmas about splitting and joining slash-separated paths -/

/-- A path segment that `path.Clean` passes through untouched: non-empty,
not `"."`, not `".."`, and containing no slash. -/
def isSimpleSegL (s : List Char) : Bool :=
  !s.isEmpty && s != ['.'] && s != ['.', '.'] && s.all (fun c => c != '/')

/-- String-level version of `isSimpleSegL`. -/
def isSimpleSeg (s : String) : Bool := isSimpleSegL s.toList

/-- A normalised URL path on which `path.Join` performs no rewriting: it
splits on `'/'` into a leading empty fragment (or is empty) followed by
simple segments only. -/
def cleanAbsPath (p : String) : Bool :=
  match splitChar '/' p.toList with
  | [] :: rest => rest.all isSimpleSegL
  | _ => false

theorem splitChar_ne_nil (sep : Char) (l : List Char) : splitChar sep l ≠ [] := by
  cases l with
  | nil => simp [splitChar]
  | cons c cs =>
    simp only [splitChar]
    split
    · simp
    · split <;> simp

theorem splitChar_append (sep : Char) (xs ys : List Char) :
    splitChar sep (xs ++ sep :: ys) = splitChar sep xs ++ splitChar sep ys := by
  induction xs with
  | nil => simp [splitChar]
  | cons x xs ih =>
    cases hx : (x == sep) with
    | true => simp [splitChar, hx, ih]
    | false =>
      obtain ⟨s0, ss0, hxs⟩ : ∃ a b, splitChar sep xs = a :: b := by
        cases h : splitChar sep xs with
        | nil => exact absurd h (splitChar_ne_nil _ _)
        | cons a b => exact ⟨a, b, rfl⟩
      simp [splitChar, hx, ih, hxs]

theorem splitChar_no_sep (sep : Char) (l : List Char)
    (h : l.all (fun c => c != sep) = true) : splitChar sep l = [l] := by
  induction l with
  | nil => rfl
  | cons c cs ih =>
    simp only [List.all_cons, Bool.and_eq_true, bne_iff_ne] at h
    have hc : (c == sep) = false := by simp [h.1]
    simp [splitChar, hc, ih h.2]

theorem intercalateSlash_append_last (f : List Char) :
    ∀ L : List (List Char), L ≠ [] →
      intercalateSlash (L ++ [f]) = intercalateSlash L ++ '/' :: f := by
  intro L
  induction L with
  | nil => intro h; exact absurd rfl h
  | cons a L ih =>
    intro _
    cases L with
    | nil => simp [intercalateSlash]
    | cons b L2 =>
      have ihh := ih (by simp)
      calc intercalateSlash ((a :: b :: L2) ++ [f])
          = a ++ '/' :: intercalateSlash ((b :: L2) ++ [f]) := by
            simp [intercalateSlash]
        _ = a ++ '/' :: (intercalateSlash (b :: L2) ++ '/' :: f) := by rw [ihh]
        _ = intercalateSlash (a :: b :: L2) ++ '/' :: f := by
            simp [intercalateSlash]

theorem intercalateSlash_splitChar (l : List Char) :
    intercalateSlash (splitChar '/' l) = l := by
  induction l with
  | nil => rfl
  | cons c cs ih =>
    cases hc : (c == '/') with
    | true =>
      have hceq : c = '/' := by simpa [beq_iff_eq] using hc
      obtain ⟨s0, ss0, hcs⟩ : ∃ a b, splitChar '/' cs = a :: b := by
        cases h : splitChar '/' cs with
        | nil => exact absurd h (splitChar_ne_nil _ _)
        | cons a b => exact ⟨a, b, rfl⟩
      rw [hcs] at ih
      simp [splitChar, hc, hcs, intercalateSlash, hceq, ih]
    | false =>
      obtain ⟨s0, ss0, hcs⟩ : ∃ a b, splitChar '/' cs = a :: b := by
        cases h : splitChar '/' cs with
        | nil => exact absurd h (splitChar_ne_nil _ _)
        | cons a b => exact ⟨a, b, rfl⟩
      rw [hcs] at ih
      cases ss0 with
      | nil =>
        simp only [intercalateSlash] at ih
        simp [splitChar, hc, hcs, intercalateSlash, ih]
      | cons t ts =>
        simp only [intercalateSlash] at ih
        simp [splitChar, hc, hcs, intercalateSlash, ih]

theorem cleanSegsAux_no_dotdot (rooted : Bool) :
    ∀ (l : List (List Char)) (acc : List (List Char)),
      (∀ s ∈ l, s ≠ ['.', '.']) →
      cleanSegsAux rooted acc l = acc.reverse ++ l := by
  intro l
  induction l with
  | nil => intro acc _; simp [cleanSegsAux]
  | cons s rest ih =>
    intro acc h
    have hs : (s == ['.', '.']) = false := by
      simp [beq_eq_false_iff_ne]
      exact h s (by simp)
    simp only [cleanSegsAux, hs, Bool.false_eq_true, if_false]
    rw [ih (s :: acc) (fun t ht => h t (by simp [ht]))]
    simp

theorem isSimpleSegL_iff (s : List Char) :
    isSimpleSegL s = true ↔
      s.isEmpty = false ∧ s ≠ ['.'] ∧ s ≠ ['.', '.'] ∧
        s.all (fun c => c != '/') = true := by
  simp only [isSimpleSegL, Bool.and_eq_true, bne_iff_ne, Bool.not_eq_true']
  tauto

theorem hexDigit_ne_slash (n : Nat) : hexDigit n ≠ '/' := by
  unfold hexDigit
  rcases Nat.lt_or_ge n 16 with h | h
  · interval_cases n <;> decide
  · have hlen : ("0123456789abcdef".toList).length ≤ n := by
      have : ("0123456789abcdef".toList).length = 16 := rfl
      omega
    rw [List.getD_eq_getElem?_getD, List.getElem?_eq_none hlen]
    decide

theorem hexOfBytes_ne_slash (bs : List Nat) :
    (hexOfBytes bs).all (fun c => c != '/') = true := by
  induction bs with
  | nil => rfl
  | cons b bs ih =>
    simp [hexOfBytes, List.all_cons, ih, bne_iff_ne, hexDigit_ne_slash]

theorem isSimpleSegL_hex_file (bs : List Nat) (sfx : List Char)
    (hsl : sfx.all (fun c => c != '/') = true) (hlen : 3 ≤ sfx.length) :
    isSimpleSegL (hexOfBytes bs ++ sfx) = true := by
  rw [isSimpleSegL_iff]
  have hlen2 : 3 ≤ (hexOfBytes bs ++ sfx).length := by
    rw [List.length_append]; omega
  refine ⟨?_, ?_, ?_, ?_⟩
  · cases h : hexOfBytes bs ++ sfx with
    | nil => rw [h] at hlen2; simp at hlen2
    | cons x t => rfl
  · intro h
    have := congrArg List.length h
    rw [List.length_append] at this
    simp at this
    omega
  · intro h
    have := congrArg List.length h
    rw [List.length_append] at this
    simp at this
    omega
  · rw [List.all_append]
    simp [hexOfBytes_ne_slash bs, hsl]

theorem goPathJoinL_cons_ne_nil (x : List Char) (xs : List (List Char))
    (hx : x.isEmpty = false) :
    goPathJoinL (x :: xs) = goPathCleanL (intercalateSlash (x :: xs)) := by
  unfold goPathJoinL
  rw [List.dropWhile_cons, hx]
  simp

theorem goPathJoinL_simple (a : Char) (pt hostL nL fL : List Char)
    (L : List (List Char))
    (hp : isSimpleSegL (a :: pt) = true) (hh : isSimpleSegL hostL = true)
    (hf : isSimpleSegL fL = true)
    (hn : splitChar '/' nL = [] :: L) (hL : L.all isSimpleSegL = true) :
    goPathJoinL [a :: pt, hostL, nL, fL] =
      (a :: pt) ++ '/' :: (hostL ++ (nL ++ '/' :: fL)) := by
  obtain ⟨hp0, hp1, hp2, hp3⟩ := (isSimpleSegL_iff _).mp hp
  obtain ⟨hh0, hh1, hh2, hh3⟩ := (isSimpleSegL_iff _).mp hh
  obtain ⟨hf0, hf1, hf2, hf3⟩ := (isSimpleSegL_iff _).mp hf
  have ha : (a == '/') = false := by
    have h2 := hp3
    simp only [List.all_cons, Bool.and_eq_true, bne_iff_ne] at h2
    simp [beq_eq_false_iff_ne, h2.1]
  have hLsimple : ∀ s ∈ L, isSimpleSegL s = true := by
    intro s hs
    exact List.all_eq_true.mp hL s hs
  -- step 1: drop the Join wrapper
  rw [goPathJoinL_cons_ne_nil _ _ hp0]
  -- step 2: the joined character list
  have hjoin : intercalateSlash [a :: pt, hostL, nL, fL] =
      (a :: pt) ++ '/' :: (hostL ++ '/' :: (nL ++ '/' :: fL)) := by
    simp [intercalateSlash]
  rw [hjoin]
  -- step 3: split the joined list back into segments
  have hsplit : splitChar '/' ((a :: pt) ++ '/' :: (hostL ++ '/' :: (nL ++ '/' :: fL))) =
      [a :: pt] ++ ([hostL] ++ (([] :: L) ++ [fL])) := by
    rw [splitChar_append, splitChar_append, splitChar_append,
      splitChar_no_sep _ _ hp3, splitChar_no_sep _ _ hh3, splitChar_no_sep _ _ hf3, hn]
  -- step 4: filtering keeps exactly the simple segments
  have hkp : keepSeg (a :: pt) = true := by
    simp [keepSeg, bne_iff_ne, hp1]
  have hkh : keepSeg hostL = true := by
    simp [keepSeg, hh0, bne_iff_ne, hh1]
  have hkf : keepSeg fL = true := by
    simp [keepSeg, hf0, bne_iff_ne, hf1]
  have hkL : L.filter keepSeg = L := by
    rw [List.filter_eq_self]
    intro s hs
    obtain ⟨h0, h1, _, _⟩ := (isSimpleSegL_iff s).mp (hLsimple s hs)
    simp [keepSeg, h0, bne_iff_ne, h1]
  have hfilter : (([a :: pt] ++ ([hostL] ++ (([] :: L) ++ [fL]))).filter keepSeg) =
      (a :: pt) :: hostL :: (L ++ [fL]) := by
    simp only [List.filter_append, List.filter_cons, hkp, hkh, hkf, hkL]
    simp [keepSeg]
  -- step 5: no ".." segment survives, so Clean rewrites nothing
  have hnd : ∀ s ∈ (a :: pt) :: hostL :: (L ++ [fL]), s ≠ ['.', '.'] := by
    intro s hs
    rcases List.mem_cons.mp hs with h | hs2
    · rw [h]; exact hp2
    rcases List.mem_cons.mp hs2 with h | hs3
    · rw [h]; exact hh2
    rcases List.mem_append.mp hs3 with h | h
    · exact ((isSimpleSegL_iff s).mp (hLsimple s h)).2.2.1
    · rw [List.mem_singleton.mp h]; exact hf2
  -- step 6: evaluate goPathCleanL
  have hfinal : List.filter keepSeg
      (splitChar '/' ((a :: pt) ++ '/' :: (hostL ++ '/' :: (nL ++ '/' :: fL)))) =
      (a :: pt) :: hostL :: (L ++ [fL]) := by
    rw [hsplit]
    exact hfilter
  simp only [List.cons_append] at hfinal ⊢
  unfold goPathCleanL
  rw [hfinal]
  have hrooted2 : ((some a == some '/') : Bool) = false := by simpa using ha
  simp only [List.isEmpty_cons, Bool.false_eq_true, if_false, List.head?_cons, hrooted2]
  rw [cleanSegsAux_no_dotdot false _ [] hnd]
  simp only [List.reverse_nil, List.nil_append, List.isEmpty_cons, Bool.false_eq_true,
    if_false]
  -- step 7: rebuild the final string
  have hnL : nL = intercalateSlash ([] :: L) := by
    rw [← hn, intercalateSlash_splitChar]
  cases L with
  | nil =>
    rw [hnL]
    simp [intercalateSlash]
  | cons l0 ls =>
    rw [intercalateSlash, intercalateSlash,
      intercalateSlash_append_last fL (l0 :: ls) (by simp), hnL]
    all_goals simp [intercalateSlash]

/-- C3 (amended): the artifact path is a deterministic function of
(method, raw URL, request body, serialized request headers) — identical
tuples give byte-identical paths — and, whenever the fixed prefix and host
are plain path segments and the normalised URL path is a clean absolute
path (no empty, `.` or `..` segments for `path.Join` to rewrite), the path
is exactly `prefix/host` + normalisedURLPath + `/` + hexDigest + `.body`,
with the digest the SHA-1 of the concatenated tuple.  (For unclean URL
paths `path.Join` may collapse the form: see the counterexample.) -/
theorem artifact_path_det_and_form (pfx host upath mth rawURL reqBody : String)
    (hs : List String) (mth2 rawURL2 reqBody2 : String) (hs2 : List String)
    (hm : mth = mth2) (hu : rawURL = rawURL2) (hb : reqBody = reqBody2)
    (hhs : hs = hs2)
    (hp : isSimpleSeg pfx = true) (hhost : isSimpleSeg host = true)
    (hn : cleanAbsPath (normalisePath upath) = true) :
    bodyArtifactPath pfx mth rawURL reqBody hs ⟨host, upath⟩ =
      bodyArtifactPath pfx mth2 rawURL2 reqBody2 hs2 ⟨host, upath⟩
    ∧ bodyArtifactPath pfx mth rawURL reqBody hs ⟨host, upath⟩ =
      pfx ++ "/" ++ host ++ normalisePath upath ++ "/" ++
        digestHex mth rawURL reqBody hs ++ ".body" := by
  subst hm; subst hu; subst hb; subst hhs
  refine ⟨rfl, ?_⟩
  obtain ⟨L, hsplitL, hallL⟩ : ∃ L,
      splitChar '/' (normalisePath upath).toList = [] :: L ∧
        L.all isSimpleSegL = true := by
    unfold cleanAbsPath at hn
    split at hn
    next rest heq => exact ⟨rest, heq, hn⟩
    next heq => simp at hn
  obtain ⟨a, pt, hpfx⟩ : ∃ a t, pfx.toList = a :: t := by
    have h0 := ((isSimpleSegL_iff _).mp hp).1
    cases h : pfx.toList with
    | nil => rw [h] at h0; simp at h0
    | cons a t => exact ⟨a, t, rfl⟩
  have hfile : (digestHex mth rawURL reqBody hs ++ ".body").toList =
      hexOfBytes (sha1bytes (strBytes (mth ++ rawURL ++ reqBody ++
        String.intercalate ", " hs))) ++ ".body".toList := by
    simp [digestHex, String.toList, List.asString]
  have hp2 : isSimpleSegL (a :: pt) = true := by
    rw [← hpfx]
    exact hp
  have hf : isSimpleSegL ((digestHex mth rawURL reqBody hs ++ ".body").toList) = true := by
    rw [hfile]
    exact isSimpleSegL_hex_file _ _ (by decide) (by decide)
  have hmain := goPathJoinL_simple a pt host.toList (normalisePath upath).toList
    ((digestHex mth rawURL reqBody hs ++ ".body").toList) L hp2 hhost hf hsplitL hallL
  unfold bodyArtifactPath goPathJoin
  simp only [List.map]
  rw [hpfx, hmain, List.asString_eq]
  have hpd : pfx.data = a :: pt := hpfx
  simp [String.toList, String.data_append, hpd]

set_option maxRecDepth 1000000 in
/-- Counterexample to C3 as stated: with URL path `"/.."` (left intact by
`normalisePath`, whose allowed set includes `.`), `path.Join` collapses the
host component, so the computed path does NOT have the claimed
`prefix/host/normalisedPath/digest.body` form. -/
theorem artifact_path_form_cex :
    bodyArtifactPath "out" "GET" "http://h.example/.." "" [] ⟨"h.example", "/.."⟩ ≠
      "out" ++ "/" ++ "h.example" ++ normalisePath "/.." ++ "/" ++
        digestHex "GET" "http://h.example/.." "" [] ++ ".body" := by
  decide

/-- Witness for C3 (amended) at a concrete clean input. -/
theorem artifact_path_det_and_form_w :
    bodyArtifactPath "out" "GET" "http://h.example/p/q.txt" "" []
        ⟨"h.example", "/p/q.txt"⟩ =
      "out" ++ "/" ++ "h.example" ++ normalisePath "/p/q.txt" ++ "/" ++
        digestHex "GET" "http://h.example/p/q.txt" "" [] ++ ".body" :=
  (artifact_path_det_and_form "out" "h.example" "/p/q.txt" "GET"
    "http://h.example/p/q.txt" "" [] "GET" "http://h.example/p/q.txt" "" []
    rfl rfl rfl rfl (by decide) (by decide) (by decide)).2

end FFF
